import Mathlib

/-!
Verification of the OpcionesA3Mercados option-pricing scripts.

Shallow embedding of the Google Apps Script sources
(`ValoracionDeOpciones_TodoEnUno.gs`, `black_scholes_generalizado.js`,
`binomial_vol_implicita.js` and the modular variants): JavaScript numbers
are modelled as real numbers, thrown `Error`s as an `Except` error value,
and the mixed number/string return values ("NA", "Parámetro inválido") as
small inductive result types.  String-case normalization at the boundary
is out of scope (inputs are taken already lower-cased), as are the
host-spreadsheet bindings.
-/

set_option maxRecDepth 8000 in
/-- Errors thrown by the scripts (JavaScript `throw new Error(...)`). -/
inductive PErr where
  | invalidUnderlying
  | invalidSettlement
  | invalidSteps
  | invalidOptionKind
deriving DecidableEq

/-- A pricing function's return value: a number, or the
"Parámetro inválido" / "Parámetro no reconocido." sentinel string. -/
inductive PVal where
  | num (v : ℝ)
  | msg

/-- An implied-volatility solver's return value: a number (possibly the
degenerate 0), or the "NA" non-convergence sentinel string. -/
inductive IVResult where
  | num (v : ℝ)
  | na

/-- Standard normal density, `normaldf` in `BlackScholes`. -/
noncomputable def normaldf (x : ℝ) : ℝ :=
  Real.exp (-(x ^ 2) / 2) / Real.sqrt (2 * Real.pi)

/-- The 5-term Abramowitz–Stegun normal CDF approximation `N` used by
`BlackScholes` in `ValoracionDeOpciones_TodoEnUno.gs`. -/
noncomputable def Npoly (x : ℝ) : ℝ :=
  let t := 1 / (1 + 0.2316419 * |x|)
  let poly := ((((1.330274429 * t + -1.821255978) * t + 1.781477937) * t
      + -0.356563782) * t + 0.319381530) * t
  let approx := 1 - normaldf x * poly
  if 0 ≤ x then approx else 1 - approx

/-- The Abramowitz–Stegun error-function approximation `erf` shared by the
erf-based normal CDFs (`normCDF` in the BS93 code, `N` in
`black_scholes_generalizado.js` / part_000). -/
noncomputable def erfAS (x : ℝ) : ℝ :=
  let sign : ℝ := if x < 0 then -1 else 1
  let ax := |x|
  let t := 1 / (1 + 0.3275911 * ax)
  let y := 1 - (((((1.061405429 * t + -1.453152027) * t + 1.421413741) * t
      + -0.284496736) * t + 0.254829592) * t) * Real.exp (-(ax * ax))
  sign * y

/-- `normCDF(x) = (1 + erf(x/√2))/2` from the BS93 section. -/
noncomputable def normCDF (x : ℝ) : ℝ := (1 + erfAS (x / Real.sqrt 2)) / 2

/-- The erf-based `N = x => 0.5 * (1 + erf(x / Math.SQRT2))` of the modular
`BlackScholes` (src/unnamed/part_000). -/
noncomputable def NerfM (x : ℝ) : ℝ := 0.5 * (1 + erfAS (x / Real.sqrt 2))

/-- `d1` of the generalized Black-Scholes model. -/
noncomputable def bsD1 (s k T b sigma : ℝ) : ℝ :=
  (Real.log (s / k) + (b + sigma ^ 2 / 2) * T) / (sigma * Real.sqrt T)

/-- `d2 = d1 - sigma·√T`. -/
noncomputable def bsD2 (s k T b sigma : ℝ) : ℝ :=
  bsD1 s k T b sigma - sigma * Real.sqrt T

/-- Cost-of-carry resolution of `BlackScholes`: given the underlying type
and settlement style it returns `(b, r_eff)` or throws.  Mirrors the
`if (tipo_subyacente === "futuro") ... else if ... "accion" ... else throw`
block (which also overrides `r` to 0 for futures_style). -/
def bsCarry (tipo estilo : String) (r q : ℝ) : Except PErr (ℝ × ℝ) :=
  if tipo = "futuro" then
    if estilo ≠ "futures_style" ∧ estilo ≠ "equity_style" then
      .error .invalidSettlement
    else .ok (0, if estilo = "futures_style" then 0 else r)
  else if tipo = "accion" then .ok (r - q, r)
  else .error .invalidUnderlying

/-- Cost-of-carry resolution of `BinomialOpVal`: same as `bsCarry` but also
accepting `matba_rofex_style` (with `b = 0` and `r` kept). -/
def binCarry (tipo estilo : String) (r q : ℝ) : Except PErr (ℝ × ℝ) :=
  if tipo = "futuro" then
    if estilo ≠ "futures_style" ∧ estilo ≠ "equity_style" ∧
        estilo ≠ "matba_rofex_style" then
      .error .invalidSettlement
    else .ok (0, if estilo = "futures_style" then 0 else r)
  else if tipo = "accion" then .ok (r - q, r)
  else .error .invalidUnderlying

/-- The `value = {...}` record built by `BlackScholes` for `T > 0`. -/
structure BSVals where
  prima : ℝ
  delta : ℝ
  theta : ℝ
  gamma : ℝ
  gammap : ℝ
  vega : ℝ
  rho : ℝ

/-- The `value` record of `BlackScholes`, parametrized by the normal CDF
approximation `Nf` (`Npoly` in the all-in-one file, `NerfM` in the modular
file; the two variants are otherwise formula-identical).  `isCall` is the
`CallPut === "call"` test; `r` is the already-overridden effective rate. -/
noncomputable def bsValues (Nf : ℝ → ℝ) (s k T r b sigma : ℝ) (isCall : Bool)
    (tipo estilo : String) : BSVals :=
  let d1 := bsD1 s k T b sigma
  let d2 := d1 - sigma * Real.sqrt T
  let df_b := Real.exp ((b - r) * T)
  let df_r := Real.exp (-(r * T))
  if isCall then
    let prima := s * df_b * Nf d1 - k * df_r * Nf d2
    let gamma := df_b * normaldf d1 / (s * sigma * Real.sqrt T)
    { prima := prima
      delta := df_b * Nf d1
      theta := -(s * df_b * normaldf d1 * sigma) / (2 * Real.sqrt T)
        + (b - r) * s * df_b * Nf d1 - r * k * df_r * Nf d2
      gamma := gamma
      gammap := gamma * s / 100
      vega := s * df_b * normaldf d1 * Real.sqrt T / 100
      rho := if tipo = "futuro" then
          (if estilo = "equity_style" then -T * prima / 100 else 0)
        else T * k * df_r * Nf d2 / 100 }
  else
    let prima := k * df_r * Nf (-d2) - s * df_b * Nf (-d1)
    let gamma := df_b * normaldf d1 / (s * sigma * Real.sqrt T)
    { prima := prima
      delta := -(df_b * Nf (-d1))
      theta := -(s * df_b * normaldf d1 * sigma) / (2 * Real.sqrt T)
        + (b - r) * s * df_b * Nf (-d1) + r * k * df_r * Nf (-d2)
      gamma := gamma
      gammap := gamma * s / 100
      vega := s * df_b * normaldf d1 * Real.sqrt T / 100
      rho := if tipo = "futuro" then
          (if estilo = "equity_style" then -T * prima / 100 else 0)
        else -T * k * df_r * Nf (-d2) / 100 }

/-- The `value[parametro] !== undefined ? value[parametro] : "Parámetro
inválido"` dictionary lookup. -/
def bsSelect (parametro : String) (v : BSVals) : PVal :=
  if parametro = "prima" then .num v.prima
  else if parametro = "delta" then .num v.delta
  else if parametro = "theta" then .num v.theta
  else if parametro = "gamma" then .num v.gamma
  else if parametro = "gammap" then .num v.gammap
  else if parametro = "vega" then .num v.vega
  else if parametro = "rho" then .num v.rho
  else .msg

/-- `BlackScholes`, parametrized by the CDF approximation (see `bsValues`).
Carry resolution happens before the degenerate `T ≤ 0` branch, as in the
source. -/
noncomputable def blackScholesGen (Nf : ℝ → ℝ) (parametro : String)
    (s k T r q sigma : ℝ) (callPut tipo estilo : String) :
    Except PErr PVal :=
  match bsCarry tipo estilo r q with
  | .error e => .error e
  | .ok (b, re) =>
    if T ≤ 0 then
      let payoff := if callPut = "call" then max (s - k) 0 else max (k - s) 0
      let delta : ℝ := if callPut = "call" then (if k < s then 1 else 0)
        else (if s < k then -1 else 0)
      if parametro = "prima" then .ok (.num payoff)
      else if parametro = "delta" then .ok (.num delta)
      else .ok (.num 0)
    else
      .ok (bsSelect parametro
        (bsValues Nf s k T re b sigma (callPut = "call") tipo estilo))

/-- `BlackScholes` from `ValoracionDeOpciones_TodoEnUno.gs` (polynomial N). -/
noncomputable def blackScholes (parametro : String) (s k T r q sigma : ℝ)
    (callPut tipo estilo : String) : Except PErr PVal :=
  blackScholesGen Npoly parametro s k T r q sigma callPut tipo estilo

/-- `BlackScholes` from `black_scholes_generalizado.js` / part_000
(erf-based N). -/
noncomputable def blackScholesM (parametro : String) (s k T r q sigma : ℝ)
    (callPut tipo estilo : String) : Except PErr PVal :=
  blackScholesGen NerfM parametro s k T r q sigma callPut tipo estilo

/-- The shared bisection loop of the three implied-volatility solvers.
`fuel` is the number of iterations still allowed before the `counter > 100`
check fires (`maxIterations`); the width test happens before the counter
check, as in the `while` loop.  A thrown error in the pricing callback
propagates; a sentinel string price compares as false in JavaScript
(`"..." > prima` is `NaN > prima` = false), taking the `low = mid` branch. -/
noncomputable def bisect (f : ℝ → Except PErr PVal) (target eps : ℝ) :
    ℕ → ℝ → ℝ → Except PErr IVResult
  | 0, low, high =>
    if eps < high - low then .ok .na else .ok (.num ((high + low) / 2))
  | fuel + 1, low, high =>
    if eps < high - low then
      match f ((high + low) / 2) with
      | .error e => .error e
      | .ok .msg => bisect f target eps fuel ((high + low) / 2) high
      | .ok (.num v) =>
        if target < v then bisect f target eps fuel low ((high + low) / 2)
        else bisect f target eps fuel ((high + low) / 2) high
    else .ok (.num ((high + low) / 2))

/-- `BlackScholesVolImpl` from `ValoracionDeOpciones_TodoEnUno.gs`. -/
noncomputable def blackScholesVolImpl (s k T r q prima : ℝ)
    (callPut tipo estilo : String) : Except PErr IVResult :=
  if tipo ≠ "accion" ∧ tipo ≠ "futuro" then .ok .na
  else if prima ≤ 0 ∨ T ≤ 0 then .ok (.num 0)
  else bisect (fun sigma => blackScholes "prima" s k T r q sigma callPut tipo estilo)
    prima (1 / 10000) 100 0 4

/-- `BS_EuropeanCall`: the plain generalized European call closed form. -/
noncomputable def bsEuropeanCall (S X T r b sigma : ℝ) : ℝ :=
  let d1 := (Real.log (S / X) + (b + 0.5 * sigma * sigma) * T) / (sigma * Real.sqrt T)
  let d2 := d1 - sigma * Real.sqrt T
  S * Real.exp ((b - r) * T) * normCDF d1 - X * Real.exp (-(r * T)) * normCDF d2

/-- The `phi` helper of the Bjerksund–Stensland 1993 call formula. -/
noncomputable def phiBS93 (S T gam H I r b sigma : ℝ) : ℝ :=
  let sig2 := sigma * sigma
  let lam := -r + gam * b + 0.5 * gam * (gam - 1) * sig2
  let d := -(Real.log (S / H) + (b + (gam - 0.5) * sig2) * T) / (sigma * Real.sqrt T)
  let kap := 2 * b / sig2 + (2 * gam - 1)
  Real.exp (lam * T) * S ^ gam *
    (normCDF d - (I / S) ^ kap * normCDF (d - 2 * Real.log (I / S) / (sigma * Real.sqrt T)))

/-- `BS93AmericanCall`: if `b ≥ r` delegate to the European closed form,
else the trigger-price approximation. -/
noncomputable def bs93AmericanCall (S X T r b sigma : ℝ) : ℝ :=
  if r ≤ b then bsEuropeanCall S X T r b sigma
  else
    let sig2 := sigma * sigma
    let beta := (0.5 - b / sig2) + Real.sqrt ((b / sig2 - 0.5) ^ 2 + 2 * r / sig2)
    let BInf := beta / (beta - 1) * X
    let B0 := max X (r / (r - b) * X)
    let hT := -(b * T + 2 * sigma * Real.sqrt T) * (B0 / (BInf - B0))
    let I := B0 + (BInf - B0) * (1 - Real.exp hT)
    let alpha := (I - X) * I ^ (-beta)
    if I ≤ S then S - X
    else
      alpha * S ^ beta - alpha * phiBS93 S T beta I I r b sigma
        + phiBS93 S T 1 I I r b sigma - phiBS93 S T 1 X I r b sigma
        - X * phiBS93 S T 0 I I r b sigma + X * phiBS93 S T 0 X I r b sigma

/-- `BS93AmericanOption`: a put is priced by the put→call transformation
`BS93AmericanCall(X, S, T, r−b, −b, sigma)`; an unknown option kind throws. -/
noncomputable def bs93AmericanOption (optionType : String) (S X T r b sigma : ℝ) :
    Except PErr ℝ :=
  if optionType = "put" then .ok (bs93AmericanCall X S T (r - b) (-b) sigma)
  else if optionType = "call" then .ok (bs93AmericanCall S X T r b sigma)
  else .error .invalidOptionKind

/-- Centered finite difference on two possibly-throwing prices. -/
def liftFD2 (a b : Except PErr ℝ) (g : ℝ → ℝ → ℝ) : Except PErr PVal :=
  match a, b with
  | .ok x, .ok y => .ok (.num (g x y))
  | .error e, _ => .error e
  | _, .error e => .error e

/-- Second difference on three possibly-throwing prices. -/
def liftFD3 (a b c : Except PErr ℝ) (g : ℝ → ℝ → ℝ → ℝ) : Except PErr PVal :=
  match a, b, c with
  | .ok x, .ok y, .ok z => .ok (.num (g x y z))
  | .error e, _, _ => .error e
  | _, .error e, _ => .error e
  | _, _, .error e => .error e

/-- `BS93Amer`: prima and finite-difference Greeks of the BS93 model.
The unrecognized-parameter branch returns the sentinel without calling the
pricer, so a bad option kind only throws for recognized parameters. -/
noncomputable def bs93Amer (parametro : String) (s k T r q sigma : ℝ)
    (callPut tipo : String) : Except PErr PVal :=
  match (if tipo = "accion" then Except.ok (r - q)
      else if tipo = "futuro" then Except.ok 0
      else Except.error PErr.invalidUnderlying : Except PErr ℝ) with
  | .error e => .error e
  | .ok b =>
    let h : ℝ := 1 / 100
    let f := fun (s' k' T' r' b' sigma' : ℝ) =>
      bs93AmericanOption callPut s' k' T' r' b' sigma'
    if parametro = "prima" then (f s k T r b sigma).map PVal.num
    else if parametro = "delta" then
      liftFD2 (f (s + h) k T r b sigma) (f (s - h) k T r b sigma)
        (fun up dn => (up - dn) / (2 * h))
    else if parametro = "gamma" then
      liftFD3 (f (s + h) k T r b sigma) (f s k T r b sigma) (f (s - h) k T r b sigma)
        (fun up mid dn => (up - 2 * mid + dn) / (h * h))
    else if parametro = "theta" then
      let hT := min h (max (1 / 1000000) (0.5 * T))
      liftFD2 (f s k (T - hT) r b sigma) (f s k (T + hT) r b sigma)
        (fun a c => (a - c) / (2 * hT))
    else if parametro = "vega" then
      liftFD2 (f s k T r b (sigma + h)) (f s k T r b (sigma - h))
        (fun a c => (a - c) / (2 * h) / 100)
    else if parametro = "rho" then
      let pw := fun rL =>
        bs93AmericanOption callPut s k T rL (if tipo = "accion" then rL - q else 0) sigma
      liftFD2 (pw (r + h)) (pw (r - h)) (fun a c => (a - c) / (2 * h) / 100)
    else .ok .msg

/-- `BS93VolImpl`: bisection over `BS93Amer("prima", ...)` with the
`[0.0001, 3.0]` initial bracket. -/
noncomputable def bs93VolImpl (s k T r q prima : ℝ) (callPut tipo : String) :
    Except PErr IVResult :=
  if tipo ≠ "accion" ∧ tipo ≠ "futuro" then .ok .na
  else if prima ≤ 0 ∨ T ≤ 0 then .ok (.num 0)
  else bisect (fun sigma => bs93Amer "prima" s k T r q sigma callPut tipo)
    prima (1 / 10000) 100 (1 / 10000) 3

/-- Per-call constants of the binomial lattice (`BinomialOpVal` body):
`z`, `b`, the effective rate `r`, `dt = T/n`, and the two flags. -/
structure BinParams where
  s : ℝ
  k : ℝ
  z : ℝ
  sigma : ℝ
  b : ℝ
  r : ℝ
  dt : ℝ
  matba : Bool
  amer : Bool

/-- `u = e^{sigma·√dt}`. -/
noncomputable def BinParams.u (P : BinParams) : ℝ :=
  Real.exp (P.sigma * Real.sqrt P.dt)

/-- `d = 1/u`. -/
noncomputable def BinParams.d (P : BinParams) : ℝ := 1 / P.u

/-- Risk-neutral probability `p = (e^{b·dt} − d)/(u − d)`. -/
noncomputable def BinParams.p (P : BinParams) : ℝ :=
  (Real.exp (P.b * P.dt) - P.d) / (P.u - P.d)

/-- Per-step discount `Df = e^{−r·dt}`. -/
noncomputable def BinParams.Df (P : BinParams) : ℝ := Real.exp (-(P.r * P.dt))

/-- Daily interest factor `interestFactor = e^{r·dt} − 1`. -/
noncomputable def BinParams.acc (P : BinParams) : ℝ := Real.exp (P.r * P.dt) - 1

/-- Intrinsic value at node `(j, i)`: `max(0, z·(s·u^i·d^{j−i} − k))`. -/
noncomputable def binIntrinsic (P : BinParams) (j i : ℕ) : ℝ :=
  max 0 (P.z * (P.s * P.u ^ i * P.d ^ (j - i) - P.k))

/-- One interior-node update of the backward induction: continuation value,
optional Matba-Rofex intrinsic-accrual adjustment, optional early exercise.
`vnext` holds the level-`j+1` values. -/
noncomputable def binNode (P : BinParams) (j i : ℕ) (vnext : List ℝ) : ℝ :=
  let intrinsic := binIntrinsic P j i
  let cont := P.p * vnext.getD (i + 1) 0 + (1 - P.p) * vnext.getD i 0
  let expected := if P.matba then P.Df * (intrinsic * P.acc + cont)
    else P.Df * cont
  if P.amer then max intrinsic expected else expected

/-- The inner `for (i = 0; i <= j; i++)` loop: level-`j` values from
level-`j+1` values. -/
noncomputable def binStep (P : BinParams) (j : ℕ) (vnext : List ℝ) : List ℝ :=
  (List.range (j + 1)).map (fun i => binNode P j i vnext)

/-- Terminal payoffs `OptionValue[i] = max(0, z·(s·u^i·d^{n−i} − k))`. -/
noncomputable def binTerminal (P : BinParams) (n : ℕ) : List ℝ :=
  (List.range (n + 1)).map (fun i => binIntrinsic P n i)

/-- `OptionValue` as left by the outer loop when it has counted down to
level `j`: terminal payoffs at `j ≥ n`, else one `binStep` below level
`j+1`. -/
noncomputable def valsAt (P : BinParams) (n j : ℕ) : List ℝ :=
  if _h : j < n then binStep P j (valsAt P n (j + 1)) else binTerminal P n
termination_by n - j
decreasing_by omega

/-- The tree-derived outputs captured by the backward pass. -/
structure BinOuts where
  prima : ℝ
  delta : ℝ
  gamma : ℝ
  theta : ℝ

/-- Price and tree Greeks of `BinomialOpVal` for `T > 0`:
prima from level 0, delta from level 1, gamma and `C21` from level 2 (only
captured when the loop visits `j = 2`, i.e. `n ≥ 3`; otherwise they keep
their `0` initializers), `theta = (C21 − C00)/(2·dt)`. -/
noncomputable def binOutputs (P : BinParams) (n : ℕ) : BinOuts :=
  let v0 := valsAt P n 0
  let C00 := v0.getD 0 0
  let v1 := valsAt P n 1
  let delta := (v1.getD 1 0 - v1.getD 0 0) / (P.s * P.u - P.s * P.d)
  let gamma :=
    if 3 ≤ n then
      let v2 := valsAt P n 2
      let Su := P.s * P.u ^ 2
      let Sm := P.s * P.u * P.d
      let Sd := P.s * P.d ^ 2
      ((v2.getD 2 0 - v2.getD 1 0) / (Su - Sm)
        - (v2.getD 1 0 - v2.getD 0 0) / (Sm - Sd)) / ((Su - Sd) / 2)
    else 0
  let C21 := if 3 ≤ n then (valsAt P n 2).getD 1 0 else 0
  { prima := C00, delta := delta, gamma := gamma,
    theta := (C21 - C00) / (2 * P.dt) }

/-- Assemble the lattice constants from the raw arguments. -/
noncomputable def mkBinParams (s k T r b sigma z : ℝ) (matba amer : Bool)
    (m : ℕ) : BinParams :=
  { s := s, k := k, z := z, sigma := sigma, b := b, r := r,
    dt := T / (m : ℝ), matba := matba, amer := amer }

/-- `BinomialOpVal`.  `n` is a rational to model JavaScript's
`Number.isInteger(n)` test on a float argument.  The vega/rho
re-invocations of the source always request `"prima"` with the same step
count, underlying and settlement strings, so the recursion is inlined:
their guard clauses and carry resolution repeat the outer call's
(for rho, carry is re-derived at the bumped rate; its success depends only
on the `tipo`/`estilo` strings, so the `.error` fallback is unreachable). -/
noncomputable def binomialOpVal (parametro : String) (s k T r q sigma : ℝ)
    (callPut euroAmer : String) (n : ℚ) (tipo estilo : String) :
    Except PErr PVal :=
  if n.den ≠ 1 ∨ n ≤ 1 then .error .invalidSteps
  else
    let z : ℝ := if callPut = "call" then 1 else -1
    match binCarry tipo estilo r q with
    | .error e => .error e
    | .ok (b, re) =>
      if T ≤ 0 then
        if parametro = "prima" then .ok (.num (max 0 (z * (s - k))))
        else if parametro = "delta" then
          .ok (.num (z * (if s ≠ k then 1 else 0)))
        else .ok (.num 0)
      else
        let m : ℕ := n.num.toNat
        let matba : Bool := tipo == "futuro" && estilo == "matba_rofex_style"
        let amer : Bool := euroAmer == "americana"
        if parametro = "vega" then
          .ok (.num (((binOutputs (mkBinParams s k T re b (sigma + 1/100) z matba amer m) m).prima
            - (binOutputs (mkBinParams s k T re b (sigma - 1/100) z matba amer m) m).prima) / 2))
        else if parametro = "rho" then
          let primaAt := fun (r' : ℝ) =>
            match binCarry tipo estilo r' q with
            | .ok (b', re') => (binOutputs (mkBinParams s k T re' b' sigma z matba amer m) m).prima
            | .error _ => 0
          .ok (.num ((primaAt (r + 1/100) - primaAt (r - 1/100)) / 2))
        else
          let O := binOutputs (mkBinParams s k T re b sigma z matba amer m) m
          if parametro = "prima" then .ok (.num O.prima)
          else if parametro = "delta" then .ok (.num O.delta)
          else if parametro = "gamma" then .ok (.num O.gamma)
          else if parametro = "theta" then .ok (.num O.theta)
          else .ok .msg

/-- `BinomialVolImpl` (identical in `ValoracionDeOpciones_TodoEnUno.gs` and
`binomial_vol_implicita.js`).  Note the first guard compares `CallPut` —
not `tipo_subyacente` — against `"futuro"`, as the source does. -/
noncomputable def binomialVolImpl (s k T r q prima : ℝ)
    (callPut euroAmer : String) (n : ℚ) (tipo estilo : String) :
    Except PErr IVResult :=
  if callPut = "futuro" then .ok .na
  else if prima ≤ 0 ∨ T ≤ 0 ∨ n ≤ 0 then .ok (.num 0)
  else if tipo = "futuro" ∧ ¬(estilo = "futures_style" ∨ estilo = "equity_style"
      ∨ estilo = "matba_rofex_style") then .error .invalidSettlement
  else bisect (fun sigma =>
      binomialOpVal "prima" s k T r q sigma callPut euroAmer n tipo estilo)
    prima (1 / 10000) 100 0 4

lemma bisect_stop (f : ℝ → Except PErr PVal) (t eps : ℝ) (fuel : ℕ)
    (low high : ℝ) (h : ¬ eps < high - low) :
    bisect f t eps fuel low high = .ok (.num ((high + low) / 2)) := by
  cases fuel <;> simp [bisect, h]

/-- If the initial bracket width is at most `eps·2^fuel`, the loop can
never exhaust its fuel: the "NA" branch is unreachable, and any numeric
result lies inside the initial bracket. -/
lemma bisect_no_na (fuel : ℕ) :
    ∀ (f : ℝ → Except PErr PVal) (t eps low high : ℝ), 0 < eps →
      low ≤ high → high - low ≤ eps * 2 ^ fuel →
      bisect f t eps fuel low high ≠ .ok .na ∧
      (∀ v, bisect f t eps fuel low high = .ok (.num v) →
        low ≤ v ∧ v ≤ high) := by
  induction fuel with
  | zero =>
    intro f t eps low high heps hlh hw
    have h : ¬ eps < high - low := by simpa using hw
    rw [bisect_stop f t eps 0 low high h]
    refine ⟨by simp, ?_⟩
    intro v hv
    simp only [Except.ok.injEq, IVResult.num.injEq] at hv
    constructor <;> [skip; skip] <;> rw [← hv] <;> linarith
  | succ n ih =>
    intro f t eps low high heps hlh hw
    by_cases hcond : eps < high - low
    · have hmidlo : low ≤ (high + low) / 2 := by linarith
      have hmidhi : (high + low) / 2 ≤ high := by linarith
      have hwhalf_up : high - (high + low) / 2 ≤ eps * 2 ^ n := by
        have : (0:ℝ) < 2 ^ n := by positivity
        rw [pow_succ] at hw; nlinarith
      have hwhalf_dn : (high + low) / 2 - low ≤ eps * 2 ^ n := by
        have : (0:ℝ) < 2 ^ n := by positivity
        rw [pow_succ] at hw; nlinarith
      cases hfm : f ((high + low) / 2) with
      | error e => simp [bisect, hcond, hfm]
      | ok pv =>
        cases pv with
        | msg =>
          have := ih f t eps ((high + low) / 2) high heps hmidhi hwhalf_up
          simp only [bisect, hcond, if_true, hfm]
          exact ⟨this.1, fun v hv => by
            have := (this.2 v hv); exact ⟨le_trans hmidlo this.1, this.2⟩⟩
        | num pv =>
          by_cases htv : t < pv
          · have := ih f t eps low ((high + low) / 2) heps hmidlo hwhalf_dn
            simp only [bisect, hcond, if_true, hfm, htv]
            exact ⟨this.1, fun v hv => by
              have := (this.2 v hv); exact ⟨this.1, le_trans this.2 hmidhi⟩⟩
          · have := ih f t eps ((high + low) / 2) high heps hmidhi hwhalf_up
            simp only [bisect, hcond, if_true, hfm, htv]
            exact ⟨this.1, fun v hv => by
              have := (this.2 v hv); exact ⟨le_trans hmidlo this.1, this.2⟩⟩
    · rw [bisect_stop f t eps (n + 1) low high hcond]
      refine ⟨by simp, ?_⟩
      intro v hv
      simp only [Except.ok.injEq, IVResult.num.injEq] at hv
      constructor <;> rw [← hv] <;> linarith

/-- Once the bracket width fits in `eps·2^m`, any fuel of at least `m`
gives the same run: the loop's outcome is decided well before 100
iterations. -/
lemma bisect_fuel_eq (m : ℕ) :
    ∀ (fuel : ℕ) (f : ℝ → Except PErr PVal) (t eps low high : ℝ), 0 < eps →
      high - low ≤ eps * 2 ^ m → m ≤ fuel →
      bisect f t eps fuel low high = bisect f t eps m low high := by
  induction m with
  | zero =>
    intro fuel f t eps low high heps hw _
    have h : ¬ eps < high - low := by simpa using hw
    rw [bisect_stop f t eps fuel low high h, bisect_stop f t eps 0 low high h]
  | succ n ih =>
    intro fuel f t eps low high heps hw hm
    obtain ⟨fl, rfl⟩ : ∃ fl, fuel = fl + 1 := ⟨fuel - 1, by omega⟩
    by_cases hcond : eps < high - low
    · have hwhalf_up : high - (high + low) / 2 ≤ eps * 2 ^ n := by
        have : (0:ℝ) < 2 ^ n := by positivity
        rw [pow_succ] at hw; nlinarith
      have hwhalf_dn : (high + low) / 2 - low ≤ eps * 2 ^ n := by
        have : (0:ℝ) < 2 ^ n := by positivity
        rw [pow_succ] at hw; nlinarith
      cases hfm : f ((high + low) / 2) with
      | error e => simp [bisect, hcond, hfm]
      | ok pv =>
        cases pv with
        | msg =>
          simp only [bisect, hcond, if_true, hfm]
          exact ih fl f t eps ((high + low) / 2) high heps hwhalf_up (by omega)
        | num pv =>
          by_cases htv : t < pv
          · simp only [bisect, hcond, if_true, hfm, htv]
            exact ih fl f t eps low ((high + low) / 2) heps hwhalf_dn (by omega)
          · simp only [bisect, hcond, if_true, hfm, htv]
            exact ih fl f t eps ((high + low) / 2) high heps hwhalf_up (by omega)
    · rw [bisect_stop f t eps (fl + 1) low high hcond,
        bisect_stop f t eps (n + 1) low high hcond]

/-- One all-low iteration: when the width test passes and the model price
at the midpoint is a number not above the target, the loop recurses on the
upper half-bracket. -/
lemma bisect_low_step (f : ℝ → Except PErr PVal) (t : ℝ) (n : ℕ)
    (lo hi mid v : ℝ) (hm : mid = (hi + lo) / 2) (hc : 1 / 10000 < hi - lo)
    (hfv : f mid = .ok (.num v)) (hnv : ¬ t < v) :
    bisect f t (1 / 10000) (n + 1) lo hi = bisect f t (1 / 10000) n mid hi := by
  simp only [bisect]
  rw [if_pos hc, ← hm, hfv]
  simp only [if_neg hnv]

/-- All-low run over the `[0, 4]` bracket of the Black-Scholes and
binomial solvers: when the model price never exceeds the target on the
bracket, the loop walks the lower bound up to `65535/16384` in 16
iterations and returns `131071/32768` (≈ 3.99997). -/
lemma bisect_allLow_0_4 (f : ℝ → Except PErr PVal) (t : ℝ)
    (hf : ∀ x : ℝ, 0 ≤ x → x ≤ 4 → ∃ v, f x = .ok (.num v) ∧ ¬ t < v) :
    bisect f t (1 / 10000) 100 0 4 = .ok (.num (131071 / 32768)) := by
  have step : ∀ (n : ℕ) (lo hi mid : ℝ), mid = (hi + lo) / 2 →
      1 / 10000 < hi - lo → 0 ≤ mid → mid ≤ 4 →
      bisect f t (1 / 10000) (n + 1) lo hi = bisect f t (1 / 10000) n mid hi := by
    intro n lo hi mid hm hc h0 h4
    obtain ⟨v, hfv, hnv⟩ := hf mid h0 h4
    exact bisect_low_step f t n lo hi mid v hm hc hfv hnv
  rw [show (100 : ℕ) = 99 + 1 from rfl,
    step 99 0 4 2 (by norm_num) (by norm_num) (by norm_num) (by norm_num)]
  rw [show (99 : ℕ) = 98 + 1 from rfl,
    step 98 2 4 3 (by norm_num) (by norm_num) (by norm_num) (by norm_num)]
  rw [show (98 : ℕ) = 97 + 1 from rfl,
    step 97 3 4 (7/2) (by norm_num) (by norm_num) (by norm_num) (by norm_num)]
  rw [show (97 : ℕ) = 96 + 1 from rfl,
    step 96 (7/2) 4 (15/4) (by norm_num) (by norm_num) (by norm_num) (by norm_num)]
  rw [show (96 : ℕ) = 95 + 1 from rfl,
    step 95 (15/4) 4 (31/8) (by norm_num) (by norm_num) (by norm_num) (by norm_num)]
  rw [show (95 : ℕ) = 94 + 1 from rfl,
    step 94 (31/8) 4 (63/16) (by norm_num) (by norm_num) (by norm_num) (by norm_num)]
  rw [show (94 : ℕ) = 93 + 1 from rfl,
    step 93 (63/16) 4 (127/32) (by norm_num) (by norm_num) (by norm_num) (by norm_num)]
  rw [show (93 : ℕ) = 92 + 1 from rfl,
    step 92 (127/32) 4 (255/64) (by norm_num) (by norm_num) (by norm_num) (by norm_num)]
  rw [show (92 : ℕ) = 91 + 1 from rfl,
    step 91 (255/64) 4 (511/128) (by norm_num) (by norm_num) (by norm_num) (by norm_num)]
  rw [show (91 : ℕ) = 90 + 1 from rfl,
    step 90 (511/128) 4 (1023/256) (by norm_num) (by norm_num) (by norm_num) (by norm_num)]
  rw [show (90 : ℕ) = 89 + 1 from rfl,
    step 89 (1023/256) 4 (2047/512) (by norm_num) (by norm_num) (by norm_num) (by norm_num)]
  rw [show (89 : ℕ) = 88 + 1 from rfl,
    step 88 (2047/512) 4 (4095/1024) (by norm_num) (by norm_num) (by norm_num) (by norm_num)]
  rw [show (88 : ℕ) = 87 + 1 from rfl,
    step 87 (4095/1024) 4 (8191/2048) (by norm_num) (by norm_num) (by norm_num) (by norm_num)]
  rw [show (87 : ℕ) = 86 + 1 from rfl,
    step 86 (8191/2048) 4 (16383/4096) (by norm_num) (by norm_num) (by norm_num) (by norm_num)]
  rw [show (86 : ℕ) = 85 + 1 from rfl,
    step 85 (16383/4096) 4 (32767/8192) (by norm_num) (by norm_num) (by norm_num) (by norm_num)]
  rw [show (85 : ℕ) = 84 + 1 from rfl,
    step 84 (32767/8192) 4 (65535/16384) (by norm_num) (by norm_num) (by norm_num) (by norm_num)]
  rw [bisect_stop f t (1/10000) 84 (65535/16384) 4 (by norm_num)]
  norm_num

/-- All-low run over the `[0.0001, 3]` bracket of the BS93 solver: 15
iterations, returning `1966050001/655360000` (≈ 2.99995). -/
lemma bisect_allLow_bs93 (f : ℝ → Except PErr PVal) (t : ℝ)
    (hf : ∀ x : ℝ, 1 / 10000 ≤ x → x ≤ 3 → ∃ v, f x = .ok (.num v) ∧ ¬ t < v) :
    bisect f t (1 / 10000) 100 (1 / 10000) 3 =
      .ok (.num (1966050001 / 655360000)) := by
  have step : ∀ (n : ℕ) (lo hi mid : ℝ), mid = (hi + lo) / 2 →
      1 / 10000 < hi - lo → 1 / 10000 ≤ mid → mid ≤ 3 →
      bisect f t (1 / 10000) (n + 1) lo hi = bisect f t (1 / 10000) n mid hi := by
    intro n lo hi mid hm hc h0 h3
    obtain ⟨v, hfv, hnv⟩ := hf mid h0 h3
    exact bisect_low_step f t n lo hi mid v hm hc hfv hnv
  rw [show (100 : ℕ) = 99 + 1 from rfl,
    step 99 (1/10000) 3 (30001/20000) (by norm_num) (by norm_num) (by norm_num) (by norm_num)]
  rw [show (99 : ℕ) = 98 + 1 from rfl,
    step 98 (30001/20000) 3 (90001/40000) (by norm_num) (by norm_num) (by norm_num) (by norm_num)]
  rw [show (98 : ℕ) = 97 + 1 from rfl,
    step 97 (90001/40000) 3 (210001/80000) (by norm_num) (by norm_num) (by norm_num) (by norm_num)]
  rw [show (97 : ℕ) = 96 + 1 from rfl,
    step 96 (210001/80000) 3 (450001/160000) (by norm_num) (by norm_num) (by norm_num) (by norm_num)]
  rw [show (96 : ℕ) = 95 + 1 from rfl,
    step 95 (450001/160000) 3 (930001/320000) (by norm_num) (by norm_num) (by norm_num) (by norm_num)]
  rw [show (95 : ℕ) = 94 + 1 from rfl,
    step 94 (930001/320000) 3 (1890001/640000) (by norm_num) (by norm_num) (by norm_num) (by norm_num)]
  rw [show (94 : ℕ) = 93 + 1 from rfl,
    step 93 (1890001/640000) 3 (3810001/1280000) (by norm_num) (by norm_num) (by norm_num) (by norm_num)]
  rw [show (93 : ℕ) = 92 + 1 from rfl,
    step 92 (3810001/1280000) 3 (7650001/2560000) (by norm_num) (by norm_num) (by norm_num) (by norm_num)]
  rw [show (92 : ℕ) = 91 + 1 from rfl,
    step 91 (7650001/2560000) 3 (15330001/5120000) (by norm_num) (by norm_num) (by norm_num) (by norm_num)]
  rw [show (91 : ℕ) = 90 + 1 from rfl,
    step 90 (15330001/5120000) 3 (30690001/10240000) (by norm_num) (by norm_num) (by norm_num) (by norm_num)]
  rw [show (90 : ℕ) = 89 + 1 from rfl,
    step 89 (30690001/10240000) 3 (61410001/20480000) (by norm_num) (by norm_num) (by norm_num) (by norm_num)]
  rw [show (89 : ℕ) = 88 + 1 from rfl,
    step 88 (61410001/20480000) 3 (122850001/40960000) (by norm_num) (by norm_num) (by norm_num) (by norm_num)]
  rw [show (88 : ℕ) = 87 + 1 from rfl,
    step 87 (122850001/40960000) 3 (245730001/81920000) (by norm_num) (by norm_num) (by norm_num) (by norm_num)]
  rw [show (87 : ℕ) = 86 + 1 from rfl,
    step 86 (245730001/81920000) 3 (491490001/163840000) (by norm_num) (by norm_num) (by norm_num) (by norm_num)]
  rw [show (86 : ℕ) = 85 + 1 from rfl,
    step 85 (491490001/163840000) 3 (983010001/327680000) (by norm_num) (by norm_num) (by norm_num) (by norm_num)]
  rw [bisect_stop f t (1/10000) 85 (983010001/327680000) 3 (by norm_num)]
  norm_num

lemma normaldf_pos (x : ℝ) : 0 < normaldf x := by
  unfold normaldf
  have h2pi : 0 < 2 * Real.pi := by positivity
  positivity

lemma normaldf_le (x : ℝ) : normaldf x ≤ 2 / 5 := by
  unfold normaldf
  have h1 : Real.exp (-(x ^ 2) / 2) ≤ 1 := by
    have := Real.exp_le_exp.mpr (show -(x ^ 2) / 2 ≤ 0 by nlinarith [sq_nonneg x])
    rwa [Real.exp_zero] at this
  have h2 : (5 / 2 : ℝ) ≤ Real.sqrt (2 * Real.pi) := by
    have hpi : (25 / 4 : ℝ) ≤ 2 * Real.pi := by nlinarith [Real.pi_gt_d6]
    calc (5 / 2 : ℝ) = Real.sqrt ((5 / 2) ^ 2) := (Real.sqrt_sq (by norm_num)).symm
    _ ≤ Real.sqrt (2 * Real.pi) := Real.sqrt_le_sqrt (by nlinarith)
  have h3 : (0 : ℝ) < Real.sqrt (2 * Real.pi) := lt_of_lt_of_le (by norm_num) h2
  rw [div_le_iff₀ h3]
  nlinarith [Real.exp_pos (-(x ^ 2) / 2)]

lemma intv_mul (p u l up : ℝ) (hl : l ≤ p) (hup : p ≤ up) (hu0 : 0 ≤ u)
    (hu1 : u ≤ 1) (hl0 : l ≤ 0) (hup0 : 0 ≤ up) :
    l ≤ p * u ∧ p * u ≤ up := by
  constructor
  · nlinarith
  · nlinarith

set_option maxHeartbeats 2000000 in
/-- Crude global bounds for the polynomial CDF approximation: for every
real argument, `-1/10 ≤ Npoly x ≤ 11/10`.  (Enough to bound every model
price by a multiple of spot and strike.) -/
lemma Npoly_bound (x : ℝ) : -(1 / 10) ≤ Npoly x ∧ Npoly x ≤ 11 / 10 := by
  have hnd0 := normaldf_pos x
  have hnd4 := normaldf_le x
  simp only [Npoly]
  set u := 1 / (1 + 0.2316419 * |x|) with hu
  have hden : (1 : ℝ) ≤ 1 + 0.2316419 * |x| := by nlinarith [abs_nonneg x]
  have hu0 : 0 ≤ u := by rw [hu]; positivity
  have hu1 : u ≤ 1 := by
    rw [hu, div_le_one (by linarith)]
    exact hden
  have h1 : -(183 / 100) ≤ 1.330274429 * u + -1.821255978 ∧
      1.330274429 * u + -1.821255978 ≤ 0 := by
    constructor <;> nlinarith
  have h1m := intv_mul _ u _ _ h1.1 h1.2 hu0 hu1 (by norm_num) (by norm_num)
  have h2 : -(1 / 20) ≤ (1.330274429 * u + -1.821255978) * u + 1.781477937 ∧
      (1.330274429 * u + -1.821255978) * u + 1.781477937 ≤ 9 / 5 := by
    constructor <;> [linarith [h1m.1]; linarith [h1m.2]]
  have h2m := intv_mul _ u _ _ h2.1 h2.2 hu0 hu1 (by norm_num) (by norm_num)
  have h3 : -(1 / 2) ≤ ((1.330274429 * u + -1.821255978) * u + 1.781477937) * u
        + -0.356563782 ∧
      ((1.330274429 * u + -1.821255978) * u + 1.781477937) * u
        + -0.356563782 ≤ 3 / 2 := by
    constructor <;> [linarith [h2m.1]; linarith [h2m.2]]
  have h3m := intv_mul _ u _ _ h3.1 h3.2 hu0 hu1 (by norm_num) (by norm_num)
  have h4 : -(1 / 5) ≤ (((1.330274429 * u + -1.821255978) * u + 1.781477937) * u
        + -0.356563782) * u + 0.319381530 ∧
      (((1.330274429 * u + -1.821255978) * u + 1.781477937) * u
        + -0.356563782) * u + 0.319381530 ≤ 19 / 10 := by
    constructor <;> [linarith [h3m.1]; linarith [h3m.2]]
  have h4m := intv_mul _ u _ _ h4.1 h4.2 hu0 hu1 (by norm_num) (by norm_num)
  set poly := ((((1.330274429 * u + -1.821255978) * u + 1.781477937) * u
      + -0.356563782) * u + 0.319381530) * u with hpoly
  have hup : normaldf x * poly ≤ 19 / 25 := by
    have ha : normaldf x * poly ≤ normaldf x * (19 / 10) :=
      mul_le_mul_of_nonneg_left h4m.2 hnd0.le
    nlinarith
  have hdn : -(2 / 25) ≤ normaldf x * poly := by
    have ha : normaldf x * -(1 / 5) ≤ normaldf x * poly :=
      mul_le_mul_of_nonneg_left h4m.1 hnd0.le
    nlinarith
  split <;> constructor <;> linarith


/-- A thrown pricing error on the first evaluated midpoint propagates out
of the loop. -/
lemma bisect_error_step (f : ℝ → Except PErr PVal) (t : ℝ) (n : ℕ)
    (lo hi : ℝ) (e : PErr) (hc : 1 / 10000 < hi - lo)
    (hfe : f ((hi + lo) / 2) = .error e) :
    bisect f t (1 / 10000) (n + 1) lo hi = .error e := by
  simp only [bisect]
  rw [if_pos hc, hfe]

/-- `BlackScholes` prima for an equity underlying with `T > 0` is the call
or put closed form from the `value` record. -/
lemma bsGen_prima_accion (Nf : ℝ → ℝ) (s k T r q sigma : ℝ) (cp es : String)
    (hT : ¬ T ≤ 0) :
    blackScholesGen Nf "prima" s k T r q sigma cp "accion" es =
      .ok (.num ((bsValues Nf s k T r (r - q) sigma (decide (cp = "call"))
        "accion" es).prima)) := by
  simp [blackScholesGen, bsCarry, bsSelect, hT]

/-- The all-in-one `BlackScholes` call premium at `s = k = 100`, `T = 1`,
`r = q = 0` is below 1000 for every volatility (the polynomial CDF
approximation is globally bounded). -/
lemma bs_prima_overmax (sigma v : ℝ)
    (hv : blackScholes "prima" 100 100 1 0 0 sigma "call" "accion" "" =
      .ok (.num v)) : v < 1000 := by
  rw [blackScholes,
    bsGen_prima_accion Npoly 100 100 1 0 0 sigma "call" "" (by norm_num)] at hv
  simp only [Except.ok.injEq, PVal.num.injEq] at hv
  rw [← hv]
  simp only [bsValues]
  norm_num [Real.sqrt_one, Real.exp_zero, bsD1]
  nlinarith [Npoly_bound (sigma ^ 2 / 2 / sigma),
    Npoly_bound (sigma ^ 2 / 2 / sigma - sigma)]

/-- C1: the claim says a target premium strictly above every attainable
price on the `[0, 4]` bracket makes the solver return the "NA" sentinel.
It does not: at `s = k = 100`, `T = 1`, `r = q = 0`, `prima = 1000` (above
every model price on the bracket, first conjunct) the solver returns the
numeric midpoint `131071/32768 ≈ 3.99997`, because the bracket halves each
iteration and the loop exits after 16 of them. -/
theorem blackScholesVolImpl_overMax_counterexample :
    (∀ sigma v : ℝ, 0 ≤ sigma → sigma ≤ 4 →
      blackScholes "prima" 100 100 1 0 0 sigma "call" "accion" "" =
        Except.ok (PVal.num v) → v < 1000) ∧
    blackScholesVolImpl 100 100 1 0 0 1000 "call" "accion" "" =
      Except.ok (IVResult.num (131071 / 32768)) := by
  constructor
  · intro sigma v _ _ hv
    exact bs_prima_overmax sigma v hv
  · rw [blackScholesVolImpl, if_neg (by simp), if_neg (by norm_num)]
    apply bisect_allLow_0_4
    intro x _ _
    refine ⟨_, by
      rw [blackScholes]
      exact bsGen_prima_accion Npoly 100 100 1 0 0 x "call" "" (by norm_num), ?_⟩
    exact not_lt.mpr (bs_prima_overmax x _ (by
      rw [blackScholes]
      exact bsGen_prima_accion Npoly 100 100 1 0 0 x "call" "" (by norm_num))).le

/-- C1 (amended): when the target premium is strictly above every model
price attainable on the initial bracket, the bisection loop of the three
solvers never returns "NA": every iteration raises the lower bound, the
bracket halves regardless, and after 16 (resp. 15) iterations the solver
returns the midpoint adjacent to the upper bound — `131071/32768 ≈ 3.99997`
for the `[0, 4]` bracket of the Black-Scholes/binomial solvers, and
`1966050001/655360000 ≈ 2.99995` for the `[0.0001, 3]` bracket of the BS93
solver. -/
theorem bisect_above_max_returns_upper_midpoint :
    ∀ (f : ℝ → Except PErr PVal) (target : ℝ),
      ((∀ x : ℝ, 0 ≤ x → x ≤ 4 → ∃ v, f x = .ok (.num v) ∧ v < target) →
        bisect f target (1 / 10000) 100 0 4 =
          .ok (.num (131071 / 32768))) ∧
      ((∀ x : ℝ, 1 / 10000 ≤ x → x ≤ 3 → ∃ v, f x = .ok (.num v) ∧ v < target) →
        bisect f target (1 / 10000) 100 (1 / 10000) 3 =
          .ok (.num (1966050001 / 655360000))) := by
  intro f target
  constructor
  · intro hf
    apply bisect_allLow_0_4
    intro x hx1 hx2
    obtain ⟨v, hv, hlt⟩ := hf x hx1 hx2
    exact ⟨v, hv, not_lt.mpr hlt.le⟩
  · intro hf
    apply bisect_allLow_bs93
    intro x hx1 hx2
    obtain ⟨v, hv, hlt⟩ := hf x hx1 hx2
    exact ⟨v, hv, not_lt.mpr hlt.le⟩

/-- Witness for C1's amended theorem at the constant-zero price function
and target 1. -/
theorem bisect_above_max_returns_upper_midpoint_witness :
    bisect (fun _ => Except.ok (PVal.num 0)) 1 (1 / 10000) 100 0 4 =
      Except.ok (IVResult.num (131071 / 32768)) :=
  (bisect_above_max_returns_upper_midpoint (fun _ => .ok (.num 0)) 1).1
    (fun _ _ _ => ⟨0, rfl, by norm_num⟩)

/-- C10: for every pricing callback and target, the loop's bracket is
exactly halved by each iteration; the run with fuel 100 equals the run
with fuel 16 (resp. 15 for the `[0.0001, 3]` bracket), i.e. the loop stops
after at most `⌈log₂(width/ε)⌉` iterations; any numeric result lies inside
the initial bounds; and the `counter > 100` branch returning "NA" is
unreachable. -/
theorem bisect_halving_never_na :
    ∀ (f : ℝ → Except PErr PVal) (target : ℝ),
      bisect f target (1 / 10000) 100 0 4 ≠ Except.ok IVResult.na ∧
      (∀ v, bisect f target (1 / 10000) 100 0 4 = .ok (.num v) →
        0 ≤ v ∧ v ≤ 4) ∧
      bisect f target (1 / 10000) 100 0 4 =
        bisect f target (1 / 10000) 16 0 4 ∧
      bisect f target (1 / 10000) 100 (1 / 10000) 3 ≠ Except.ok IVResult.na ∧
      (∀ v, bisect f target (1 / 10000) 100 (1 / 10000) 3 = .ok (.num v) →
        1 / 10000 ≤ v ∧ v ≤ 3) ∧
      bisect f target (1 / 10000) 100 (1 / 10000) 3 =
        bisect f target (1 / 10000) 15 (1 / 10000) 3 ∧
      (∀ (fuel : ℕ) (lo hi v : ℝ), 1 / 10000 < hi - lo →
        f ((hi + lo) / 2) = .ok (.num v) →
        ∃ lo' hi', bisect f target (1 / 10000) (fuel + 1) lo hi =
          bisect f target (1 / 10000) fuel lo' hi' ∧
          hi' - lo' = (hi - lo) / 2) := by
  intro f target
  have h4 := bisect_no_na 100 f target (1 / 10000) 0 4 (by norm_num)
    (by norm_num) (by norm_num)
  have h3 := bisect_no_na 100 f target (1 / 10000) (1 / 10000) 3 (by norm_num)
    (by norm_num) (by norm_num)
  refine ⟨h4.1, h4.2, ?_, h3.1, h3.2, ?_, ?_⟩
  · exact bisect_fuel_eq 16 100 f target (1 / 10000) 0 4 (by norm_num)
      (by norm_num) (by norm_num)
  · exact bisect_fuel_eq 15 100 f target (1 / 10000) (1 / 10000) 3 (by norm_num)
      (by norm_num) (by norm_num)
  · intro fuel lo hi v hc hfv
    by_cases htv : target < v
    · refine ⟨lo, (hi + lo) / 2, ?_, by ring⟩
      simp only [bisect]
      rw [if_pos hc, hfv]
      simp only [if_pos htv]
    · refine ⟨(hi + lo) / 2, hi, ?_, by ring⟩
      simp only [bisect]
      rw [if_pos hc, hfv]
      simp only [if_neg htv]

/-- Witness for C10 at the constant-zero price function and target 0. -/
theorem bisect_halving_never_na_witness :
    bisect (fun _ => Except.ok (PVal.num 0)) 0 (1 / 10000) 100 0 4 ≠
      Except.ok IVResult.na :=
  (bisect_halving_never_na (fun _ => .ok (.num 0)) 0).1

/-- C2: evaluation of the solver guard clauses.  The premium/T guards do
return 0 (conjuncts 3–5) and `BlackScholesVolImpl` does return "NA" on an
unknown underlying kind (conjunct 2).  But `BinomialVolImpl` compares
`CallPut` — not `tipo_subyacente` — against "futuro", so an unknown
underlying kind slips past its guards and the first in-loop pricing call
throws the underlying-type error instead of returning "NA" (conjunct 1):
the guard is a copy-paste slip, the claim matches the evident intent. -/
theorem solver_guard_clause_behavior :
    binomialVolImpl 100 100 1 0 0 5 "call" "europea" 2 "bond" "" =
      Except.error PErr.invalidUnderlying ∧
    blackScholesVolImpl 100 100 1 0 0 5 "call" "bond" "" =
      Except.ok IVResult.na ∧
    blackScholesVolImpl 100 100 1 0 0 (-5) "call" "accion" "" =
      Except.ok (IVResult.num 0) ∧
    binomialVolImpl 100 100 1 0 0 (-5) "call" "europea" 2 "accion" "" =
      Except.ok (IVResult.num 0) ∧
    binomialVolImpl 100 100 0 0 0 5 "call" "europea" 2 "accion" "" =
      Except.ok (IVResult.num 0) := by
  refine ⟨?_, ?_, ?_, ?_, ?_⟩
  · rw [binomialVolImpl, if_neg (by decide), if_neg (by norm_num),
      if_neg (by decide)]
    have hf : binomialOpVal "prima" 100 100 1 0 0 ((4 + 0) / 2) "call"
        "europea" 2 "bond" "" = Except.error PErr.invalidUnderlying := by
      rw [binomialOpVal, if_neg (by norm_num)]
      simp [binCarry]
    rw [show (100 : ℕ) = 99 + 1 from rfl]
    exact bisect_error_step _ 5 99 0 4 _ (by norm_num) hf
  · rw [blackScholesVolImpl, if_pos (by decide)]
  · rw [blackScholesVolImpl, if_neg (by decide), if_pos (by norm_num)]
  · rw [binomialVolImpl, if_neg (by decide), if_pos (by norm_num)]
  · rw [binomialVolImpl, if_neg (by decide), if_pos (by norm_num)]

set_option maxRecDepth 4000 in
/-- C3: the claim says the `T = 0`, `s = 90`, `k = 100` call has
`delta = 0` in every model's degenerate branch.  The binomial lattice
instead returns `z·(s ≠ k ? 1 : 0) = 1` for this out-of-the-money call. -/
theorem binomial_degenerate_delta_otm_counterexample :
    binomialOpVal "delta" 90 100 0 0 0 (1/5) "call" "europea" 2 "accion" "" =
      Except.ok (PVal.num 1) := by
  rw [binomialOpVal, if_neg (by norm_num)]
  simp [binCarry]

set_option maxRecDepth 4000 in
/-- C3 (amended): in the `T = 0` degenerate branch the generalized BS
model returns intrinsic prima and step-function delta exactly as claimed
(`10, 1` at `s = 110`; `0, 0` at `s = 90`), and the binomial lattice
agrees on prima and the in-the-money delta, but its degenerate delta is
`z·(s ≠ k ? 1 : 0)`, which is `1` — not `0` — for the `s = 90` call. -/
theorem degenerate_branch_values :
    ∀ (r q sigma : ℝ) (es ea : String) (n : ℚ), n.den = 1 → 1 < n →
      (blackScholes "prima" 110 100 0 r q sigma "call" "accion" es =
          .ok (.num 10) ∧
        blackScholes "delta" 110 100 0 r q sigma "call" "accion" es =
          .ok (.num 1) ∧
        blackScholes "prima" 90 100 0 r q sigma "call" "accion" es =
          .ok (.num 0) ∧
        blackScholes "delta" 90 100 0 r q sigma "call" "accion" es =
          .ok (.num 0)) ∧
      (binomialOpVal "prima" 110 100 0 r q sigma "call" ea n "accion" es =
          .ok (.num 10) ∧
        binomialOpVal "delta" 110 100 0 r q sigma "call" ea n "accion" es =
          .ok (.num 1) ∧
        binomialOpVal "prima" 90 100 0 r q sigma "call" ea n "accion" es =
          .ok (.num 0) ∧
        binomialOpVal "delta" 90 100 0 r q sigma "call" ea n "accion" es =
          .ok (.num 1)) := by
  intro r q sigma es ea n hden hn1
  have hng : ¬ (n.den ≠ 1 ∨ n ≤ 1) := by push_neg; exact ⟨hden, hn1⟩
  refine ⟨⟨?_, ?_, ?_, ?_⟩, ?_, ?_, ?_, ?_⟩ <;>
    first
    | (rw [blackScholes, blackScholesGen]; simp [bsCarry]; try norm_num)
    | (rw [binomialOpVal, if_neg hng]; simp [binCarry]; try norm_num)

set_option maxRecDepth 4000 in
/-- Witness for C3's amended theorem at concrete inputs. -/
theorem degenerate_branch_values_witness :
    blackScholes "prima" 110 100 0 0 0 (1/5) "call" "accion" "" =
      .ok (.num 10) ∧
    binomialOpVal "delta" 110 100 0 0 0 (1/5) "call" "europea" 2 "accion" ""
      = .ok (.num 1) :=
  ⟨(degenerate_branch_values 0 0 (1/5) "" "europea" 2 (by decide)
      (by norm_num)).1.1,
    (degenerate_branch_values 0 0 (1/5) "" "europea" 2 (by decide)
      (by norm_num)).2.2.1⟩

/-- C4: the claim says every lattice invocation — directly or through the
implied-volatility solver — with a step count that is not an integer
greater than 1 fails with the step-count error.  Through the solver with
`n = 0` it instead returns 0: the `prima ≤ 0 || T ≤ 0 || n ≤ 0` guard
swallows non-positive step counts before the pricer can reject them. -/
theorem binomialVolImpl_zero_steps_counterexample :
    binomialVolImpl 100 100 1 0 0 1 "call" "europea" 0 "accion" "" =
      Except.ok (IVResult.num 0) := by
  rw [binomialVolImpl, if_neg (by decide), if_pos (by norm_num)]

set_option maxRecDepth 4000 in
/-- C4 (amended): direct lattice invocations with a non-integer step count
or one at most 1 fail with the step-count error before any tree work;
through the solver, `n ≤ 0` returns the degenerate 0 from the guard
clause, while a positive invalid step count (e.g. `n = 1`) surfaces as the
step-count error thrown by the first in-loop pricing call. -/
theorem step_count_validation :
    (∀ (p : String) (s k T r q sigma : ℝ) (cp ea tipo es : String) (n : ℚ),
      n.den ≠ 1 ∨ n ≤ 1 →
      binomialOpVal p s k T r q sigma cp ea n tipo es =
        Except.error PErr.invalidSteps) ∧
    (∀ (s k T r q prima : ℝ) (cp ea tipo es : String) (n : ℚ),
      cp ≠ "futuro" → n ≤ 0 →
      binomialVolImpl s k T r q prima cp ea n tipo es =
        Except.ok (IVResult.num 0)) ∧
    binomialVolImpl 100 100 1 0 0 1 "call" "europea" 1 "accion" "" =
      Except.error PErr.invalidSteps := by
  refine ⟨?_, ?_, ?_⟩
  · intro p s k T r q sigma cp ea tipo es n h
    rw [binomialOpVal, if_pos h]
  · intro s k T r q prima cp ea tipo es n hcp hn
    rw [binomialVolImpl, if_neg hcp, if_pos (Or.inr (Or.inr hn))]
  · rw [binomialVolImpl, if_neg (by decide), if_neg (by norm_num),
      if_neg (by decide)]
    have hf : binomialOpVal "prima" 100 100 1 0 0 ((4 + 0) / 2) "call"
        "europea" 1 "accion" "" = Except.error PErr.invalidSteps := by
      rw [binomialOpVal, if_pos (by norm_num)]
    rw [show (100 : ℕ) = 99 + 1 from rfl]
    exact bisect_error_step _ 1 99 0 4 _ (by norm_num) hf

set_option maxRecDepth 4000 in
/-- Witness for C4's amended theorem at concrete inputs. -/
theorem step_count_validation_witness :
    binomialOpVal "prima" 100 100 1 0 0 (1/5) "call" "europea" 0 "accion" "" =
      Except.error PErr.invalidSteps ∧
    binomialVolImpl 100 100 1 0 0 5 "call" "europea" (-2) "accion" "" =
      Except.ok (IVResult.num 0) :=
  ⟨step_count_validation.1 "prima" 100 100 1 0 0 (1/5) "call" "europea"
      "accion" "" 0 (Or.inr (by norm_num)),
    step_count_validation.2.1 100 100 1 0 0 5 "call" "europea" "accion" ""
      (-2) (by decide) (by norm_num)⟩

/-- C9: the claim says an unrecognized parameter selector yields the
invalid-selector sentinel even in the degenerate `T ≤ 0` case.  It does
not: with `T = 0` the degenerate branch returns `0` for every selector
other than prima and delta, recognized or not. -/
theorem invalid_selector_degenerate_counterexample :
    blackScholes "foo" 110 100 0 0 0 (1/5) "call" "accion" "" =
      Except.ok (PVal.num 0) := by
  rw [blackScholes, blackScholesGen]
  simp [bsCarry]

/-- C9 (amended): for `T > 0` the generalized BS and lattice pricers
return the invalid-selector sentinel — a normal return value, never a
thrown error — for any unrecognized selector, and the BS93 pricer does so
for every `T`; but in the `T ≤ 0` degenerate branch the BS and lattice
pricers return `0` for unrecognized selectors instead. -/
theorem invalid_selector_sentinel :
    ∀ (p : String) (s k T r q sigma : ℝ) (cp es ea : String) (n : ℚ),
      p ≠ "prima" → p ≠ "delta" → p ≠ "theta" → p ≠ "gamma" → p ≠ "gammap" →
      p ≠ "vega" → p ≠ "rho" →
      (¬ T ≤ 0 → blackScholes p s k T r q sigma cp "accion" es = .ok .msg) ∧
      (¬ T ≤ 0 → n.den = 1 → 1 < n →
        binomialOpVal p s k T r q sigma cp ea n "accion" es = .ok .msg) ∧
      bs93Amer p s k T r q sigma cp "accion" = .ok .msg ∧
      (T ≤ 0 →
        blackScholes p s k T r q sigma cp "accion" es = .ok (.num 0) ∧
        (n.den = 1 → 1 < n →
          binomialOpVal p s k T r q sigma cp ea n "accion" es =
            .ok (.num 0))) := by
  intro p s k T r q sigma cp es ea n h1 h2 h3 h4 h5 h6 h7
  refine ⟨?_, ?_, ?_, ?_⟩
  · intro hT
    rw [blackScholes, blackScholesGen]
    simp [bsCarry, bsSelect, hT, h1, h2, h3, h4, h5, h6, h7]
  · intro hT hden hn1
    have hng : ¬ (n.den ≠ 1 ∨ n ≤ 1) := by push_neg; exact ⟨hden, hn1⟩
    rw [binomialOpVal, if_neg hng]
    simp [binCarry, hT, h1, h2, h3, h4, h6, h7]
  · rw [bs93Amer]
    simp [h1, h2, h3, h4, h6, h7]
  · intro hT
    constructor
    · rw [blackScholes, blackScholesGen]
      simp [bsCarry, hT, h1, h2]
    · intro hden hn1
      have hng : ¬ (n.den ≠ 1 ∨ n ≤ 1) := by push_neg; exact ⟨hden, hn1⟩
      rw [binomialOpVal, if_neg hng]
      simp [binCarry, hT, h1, h2]

/-- Witness for C9's amended theorem at the selector "foo". -/
theorem invalid_selector_sentinel_witness :
    blackScholes "foo" 100 100 1 0 0 (1/5) "call" "accion" "" = .ok .msg ∧
    bs93Amer "foo" 100 100 1 0 0 (1/5) "call" "accion" = .ok .msg ∧
    blackScholes "foo" 100 100 0 0 0 (1/5) "call" "accion" "" =
      .ok (.num 0) := by
  refine ⟨?_, ?_, ?_⟩
  · exact (invalid_selector_sentinel "foo" 100 100 1 0 0 (1/5) "call" "" ""
      2 (by decide) (by decide) (by decide) (by decide) (by decide)
      (by decide) (by decide)).1 (by norm_num)
  · exact (invalid_selector_sentinel "foo" 100 100 1 0 0 (1/5) "call" "" ""
      2 (by decide) (by decide) (by decide) (by decide) (by decide)
      (by decide) (by decide)).2.2.1
  · exact ((invalid_selector_sentinel "foo" 100 100 0 0 0 (1/5) "call" "" ""
      2 (by decide) (by decide) (by decide) (by decide) (by decide)
      (by decide) (by decide)).2.2.2 (by norm_num)).1

/-- C5: whenever the cost of carry is at least the rate — directly on the
call pricer, through the put-to-call transformation (`b' = -b ≥ r' = r -
b` iff `r ≤ 0`), or at the `BS93Amer("prima", ..)` level for an equity
with `q ≤ 0` — the Bjerksund-Stensland pricer returns exactly the plain
generalized European call closed form `BS_EuropeanCall` at the same
arguments. -/
theorem bs93_b_ge_r_equals_european :
    ∀ (S X T r b sigma s k q : ℝ),
      (r ≤ b → bs93AmericanCall S X T r b sigma =
        bsEuropeanCall S X T r b sigma) ∧
      (r ≤ 0 → bs93AmericanOption "put" S X T r b sigma =
        Except.ok (bsEuropeanCall X S T (r - b) (-b) sigma)) ∧
      (q ≤ 0 → bs93Amer "prima" s k T r q sigma "call" "accion" =
        Except.ok (PVal.num (bsEuropeanCall s k T r (r - q) sigma))) := by
  intro S X T r b sigma s k q
  refine ⟨?_, ?_, ?_⟩
  · intro h
    rw [bs93AmericanCall, if_pos h]
  · intro h
    rw [bs93AmericanOption, if_pos rfl, bs93AmericanCall,
      if_pos (by linarith : r - b ≤ -b)]
  · intro h
    have hb : r ≤ r - q := by linarith
    simp [bs93Amer, bs93AmericanOption]
    rw [bs93AmericanCall, if_pos hb]
    rfl

/-- Witness for C5 at an at-the-carry configuration (`b = r = 0`). -/
theorem bs93_b_ge_r_equals_european_witness :
    (0 : ℝ) ≤ 0 ∧ bs93Amer "prima" 100 105 1 0 0 (1/5) "call" "accion" =
      Except.ok (PVal.num (bsEuropeanCall 100 105 1 0 (0 - 0) (1/5))) :=
  ⟨le_refl 0,
    (bs93_b_ge_r_equals_european 1 1 1 0 0 (1/5) 100 105 0).2.2 (le_refl 0)⟩

/-- C8: the cost-of-carry resolution of both pricing models: equity gives
`(b, r_eff) = (r - q, r)` with the settlement style ignored; a future
gives `(0, 0)` under futures_style and `(0, r)` under equity_style; an
unknown underlying kind, or a future with a settlement style the invoked
model does not recognize, makes the pricer fail with the corresponding
error before any pricing (for the lattice, after the step-count check
only). -/
theorem carry_resolution_rules :
    ∀ (r q : ℝ) (estilo : String),
      (bsCarry "accion" estilo r q = .ok (r - q, r) ∧
        binCarry "accion" estilo r q = .ok (r - q, r)) ∧
      (bsCarry "futuro" "futures_style" r q = .ok (0, 0) ∧
        binCarry "futuro" "futures_style" r q = .ok (0, 0)) ∧
      (bsCarry "futuro" "equity_style" r q = .ok (0, r) ∧
        binCarry "futuro" "equity_style" r q = .ok (0, r)) ∧
      (∀ tipo, tipo ≠ "accion" → tipo ≠ "futuro" →
        bsCarry tipo estilo r q = .error .invalidUnderlying ∧
        binCarry tipo estilo r q = .error .invalidUnderlying ∧
        (∀ (p : String) (s k T sigma : ℝ) (cp : String),
          blackScholes p s k T r q sigma cp tipo estilo =
            .error .invalidUnderlying) ∧
        (∀ (p : String) (s k T sigma : ℝ) (cp ea : String) (n : ℚ),
          n.den = 1 → 1 < n →
          binomialOpVal p s k T r q sigma cp ea n tipo estilo =
            .error .invalidUnderlying)) ∧
      (estilo ≠ "futures_style" → estilo ≠ "equity_style" →
        bsCarry "futuro" estilo r q = .error .invalidSettlement ∧
        (∀ (p : String) (s k T sigma : ℝ) (cp : String),
          blackScholes p s k T r q sigma cp "futuro" estilo =
            .error .invalidSettlement)) ∧
      (estilo ≠ "futures_style" → estilo ≠ "equity_style" →
        estilo ≠ "matba_rofex_style" →
        binCarry "futuro" estilo r q = .error .invalidSettlement ∧
        (∀ (p : String) (s k T sigma : ℝ) (cp ea : String) (n : ℚ),
          n.den = 1 → 1 < n →
          binomialOpVal p s k T r q sigma cp ea n "futuro" estilo =
            .error .invalidSettlement)) := by
  intro r q estilo
  refine ⟨⟨?_, ?_⟩, ⟨?_, ?_⟩, ⟨?_, ?_⟩, ?_, ?_, ?_⟩
  · simp [bsCarry]
  · simp [binCarry]
  · simp [bsCarry]
  · simp [binCarry]
  · simp [bsCarry]
  · simp [binCarry]
  · intro tipo h1 h2
    have hbs : bsCarry tipo estilo r q = .error .invalidUnderlying := by
      simp [bsCarry, h1, h2]
    have hbin : binCarry tipo estilo r q = .error .invalidUnderlying := by
      simp [binCarry, h1, h2]
    refine ⟨hbs, hbin, ?_, ?_⟩
    · intro p s k T sigma cp
      rw [blackScholes, blackScholesGen, hbs]
    · intro p s k T sigma cp ea n hden hn1
      have hng : ¬ (n.den ≠ 1 ∨ n ≤ 1) := by push_neg; exact ⟨hden, hn1⟩
      rw [binomialOpVal, if_neg hng, hbin]
  · intro h1 h2
    have hbs : bsCarry "futuro" estilo r q = .error .invalidSettlement := by
      simp [bsCarry, h1, h2]
    refine ⟨hbs, ?_⟩
    intro p s k T sigma cp
    rw [blackScholes, blackScholesGen, hbs]
  · intro h1 h2 h3
    have hbin : binCarry "futuro" estilo r q = .error .invalidSettlement := by
      simp [binCarry, h1, h2, h3]
    refine ⟨hbin, ?_⟩
    intro p s k T sigma cp ea n hden hn1
    have hng : ¬ (n.den ≠ 1 ∨ n ≤ 1) := by push_neg; exact ⟨hden, hn1⟩
    rw [binomialOpVal, if_neg hng, hbin]

/-- Witness for C8 at concrete rates and strings. -/
theorem carry_resolution_rules_witness :
    bsCarry "accion" "" (1/10) (1/20) = .ok (1/10 - 1/20, 1/10) ∧
    bsCarry "bond" "" (1/10) (1/20) = .error .invalidUnderlying ∧
    binCarry "futuro" "weird" (1/10) (1/20) = .error .invalidSettlement :=
  ⟨((carry_resolution_rules (1/10) (1/20) "").1).1,
    ((carry_resolution_rules (1/10) (1/20) "").2.2.2.1 "bond" (by decide)
      (by decide)).1,
    ((carry_resolution_rules (1/10) (1/20) "weird").2.2.2.2.2 (by decide)
      (by decide) (by decide)).1⟩

lemma getD_range_map (fn : ℕ → ℝ) (m i : ℕ) (h : i < m) :
    ((List.range m).map fn).getD i 0 = fn i := by
  rw [List.getD_eq_getElem?_getD]
  simp [List.getElem?_map, List.getElem?_range h]

/-- C7: at every interior node `(j, i)` of the backward induction
(`j < n`, `i ≤ j`), the stored value satisfies the spec's recurrence: with
`intrinsic = max(0, z·(s·u^i·d^{j-i} - k))`, `continuation = p·V[i+1] +
(1-p)·V[i]` over the level-`j+1` values, `accrual = e^{r_eff·dt} - 1` and
`Df = e^{-r_eff·dt}`, the expected value is `Df·(intrinsic·accrual +
continuation)` exactly when the underlying/settlement pair resolved to
Matba-Rofex margining, else `Df·continuation`; the node stores
`max(intrinsic, expected)` for an American option, else `expected`. -/
theorem lattice_node_recurrence :
    ∀ (P : BinParams) (n j i : ℕ), j < n → i ≤ j →
      (valsAt P n j).getD i 0 =
        (let intrinsic := max 0 (P.z * (P.s * P.u ^ i * P.d ^ (j - i) - P.k))
         let continuation := P.p * (valsAt P n (j + 1)).getD (i + 1) 0 +
           (1 - P.p) * (valsAt P n (j + 1)).getD i 0
         let accrual := Real.exp (P.r * P.dt) - 1
         let Df := Real.exp (-(P.r * P.dt))
         let expected := if P.matba then Df * (intrinsic * accrual + continuation)
           else Df * continuation
         if P.amer then max intrinsic expected else expected) := by
  intro P n j i hj hi
  rw [valsAt, dif_pos hj, binStep, getD_range_map _ _ _ (by omega)]
  rfl

/-- Concrete lattice constants for the C7 witness. -/
noncomputable def binParamsW : BinParams :=
  { s := 100, k := 100, z := 1, sigma := 1/5, b := 0, r := 1/10, dt := 1/2,
    matba := true, amer := true }

/-- Witness for C7 at the root node of a two-step American Matba-Rofex
lattice. -/
theorem lattice_node_recurrence_witness :
    (0 : ℕ) < 2 ∧
    (valsAt binParamsW 2 0).getD 0 0 =
      (let intrinsic := max 0 (binParamsW.z *
         (binParamsW.s * binParamsW.u ^ 0 * binParamsW.d ^ (0 - 0) -
           binParamsW.k))
       let continuation := binParamsW.p * (valsAt binParamsW 2 (0 + 1)).getD
           (0 + 1) 0 +
         (1 - binParamsW.p) * (valsAt binParamsW 2 (0 + 1)).getD 0 0
       let accrual := Real.exp (binParamsW.r * binParamsW.dt) - 1
       let Df := Real.exp (-(binParamsW.r * binParamsW.dt))
       let expected := if binParamsW.matba then
           Df * (intrinsic * accrual + continuation)
         else Df * continuation
       if binParamsW.amer then max intrinsic expected else expected) :=
  ⟨by norm_num, lattice_node_recurrence binParamsW 2 0 0 (by norm_num)
    (le_refl 0)⟩

/-- The polynomial CDF approximation satisfies `N(x) + N(-x) = 1` exactly
for `x ≠ 0` (the two branches mirror through the shared even `approx`). -/
lemma Npoly_add_neg (x : ℝ) (hx : x ≠ 0) : Npoly x + Npoly (-x) = 1 := by
  rcases hx.lt_or_lt with h | h
  · simp only [Npoly, abs_neg, normaldf, neg_sq]
    rw [if_neg (not_le.mpr h), if_pos (by linarith : (0:ℝ) ≤ -x)]
    ring
  · simp only [Npoly, abs_neg, normaldf, neg_sq]
    rw [if_pos h.le, if_neg (by linarith : ¬ (0:ℝ) ≤ -x)]
    ring

/-- The A&S `erf` approximation is odd away from 0. -/
lemma erfAS_neg (x : ℝ) (hx : 0 < x) : erfAS (-x) = -erfAS x := by
  simp only [erfAS, abs_neg]
  rw [if_pos (by linarith : -x < 0), if_neg (not_lt.mpr hx.le)]
  ring

lemma erfAS_add_neg (c : ℝ) (hc : c ≠ 0) : erfAS c + erfAS (-c) = 0 := by
  rcases hc.lt_or_lt with h | h
  · have h1 := erfAS_neg (-c) (by linarith)
    rw [neg_neg] at h1
    linarith
  · linarith [erfAS_neg c h]

/-- The erf-based CDF approximation also satisfies `N(x) + N(-x) = 1`
exactly for `x ≠ 0`. -/
lemma NerfM_add_neg (x : ℝ) (hx : x ≠ 0) : NerfM x + NerfM (-x) = 1 := by
  have hs2 : Real.sqrt 2 ≠ 0 := by positivity
  have hc := erfAS_add_neg (x / Real.sqrt 2) (div_ne_zero hx hs2)
  simp only [NerfM]
  rw [neg_div]
  linarith

/-- C6 (amended): for an equity underlying with `T > 0` and `b = r - q`,
put-call parity `prima_call - prima_put = s·e^{(b-r)T} - k·e^{-rT}` holds
exactly in both generalized-BS variants (polynomial and erf-based CDF
approximations) whenever `d1 ≠ 0` and `d2 ≠ 0`; at `d1 = 0` or `d2 = 0`
the approximations' `N(x) + N(-x)` misses 1 by an exact rational defect
and parity fails (see the counterexample). -/
theorem put_call_parity_generic :
    ∀ (s k T r q sigma : ℝ) (es : String), ¬ T ≤ 0 →
      bsD1 s k T (r - q) sigma ≠ 0 → bsD2 s k T (r - q) sigma ≠ 0 →
      ∀ Nf : ℝ → ℝ, Nf = Npoly ∨ Nf = NerfM →
      ∃ c p : ℝ,
        blackScholesGen Nf "prima" s k T r q sigma "call" "accion" es =
          .ok (.num c) ∧
        blackScholesGen Nf "prima" s k T r q sigma "put" "accion" es =
          .ok (.num p) ∧
        c - p = s * Real.exp ((r - q - r) * T) - k * Real.exp (-(r * T)) := by
  intro s k T r q sigma es hT hd1 hd2 Nf hNf
  refine ⟨_, _, bsGen_prima_accion Nf s k T r q sigma "call" es hT,
    bsGen_prima_accion Nf s k T r q sigma "put" es hT, ?_⟩
  have hsum1 : Nf (bsD1 s k T (r - q) sigma) +
      Nf (-(bsD1 s k T (r - q) sigma)) = 1 := by
    rcases hNf with rfl | rfl
    exacts [Npoly_add_neg _ hd1, NerfM_add_neg _ hd1]
  have hsum2 : Nf (bsD1 s k T (r - q) sigma - sigma * Real.sqrt T) +
      Nf (-(bsD1 s k T (r - q) sigma - sigma * Real.sqrt T)) = 1 := by
    rw [bsD2] at hd2
    rcases hNf with rfl | rfl
    exacts [Npoly_add_neg _ hd2, NerfM_add_neg _ hd2]
  rw [neg_sub] at hsum2
  simp [bsValues]
  linear_combination s * Real.exp (-(q * T)) * hsum1 -
    k * Real.exp (-(r * T)) * hsum2

/-- The erf-based CDF approximation at 0: the five erf coefficients sum to
`0.999999999`, so `N(0) = 1/2 + 5·10⁻¹⁰` exactly — not `1/2`. -/
lemma NerfM_zero : NerfM 0 = 1 / 2 + 1 / 2000000000 := by
  simp only [NerfM, erfAS, zero_div, abs_zero]
  norm_num [Real.exp_zero]

/-- C6: put-call parity as claimed fails on the code at `s = k = 1`,
`T = 1`, `r = 0`, `q = 1/2`, `sigma = 1` (where `d1 = 0`): the premium
difference exceeds `s·df_b - k·df_r` by exactly `e^{-1/2}·10⁻⁹`, because
`N(0) + N(-0) = 1 + 10⁻⁹ ≠ 1` in the erf-based variant. -/
theorem put_call_parity_counterexample :
    ¬ (∀ c p : ℝ,
        blackScholesM "prima" 1 1 1 0 (1/2) 1 "call" "accion" "" =
          Except.ok (PVal.num c) →
        blackScholesM "prima" 1 1 1 0 (1/2) 1 "put" "accion" "" =
          Except.ok (PVal.num p) →
        c - p = 1 * Real.exp ((0 - 1/2 - 0) * 1) - 1 * Real.exp (-(0 * 1))) := by
  intro H
  have hd1 : bsD1 1 1 1 (0 - 1/2) 1 = 0 := by
    norm_num [bsD1, Real.log_one, Real.sqrt_one]
  have hc : blackScholesM "prima" 1 1 1 0 (1/2) 1 "call" "accion" "" =
      .ok (.num ((bsValues NerfM 1 1 1 0 (0 - 1/2) 1
        (decide ("call" = "call")) "accion" "").prima)) := by
    rw [blackScholesM]
    exact bsGen_prima_accion NerfM 1 1 1 0 (1/2) 1 "call" "" (by norm_num)
  have hp : blackScholesM "prima" 1 1 1 0 (1/2) 1 "put" "accion" "" =
      .ok (.num ((bsValues NerfM 1 1 1 0 (0 - 1/2) 1
        (decide ("put" = "call")) "accion" "").prima)) := by
    rw [blackScholesM]
    exact bsGen_prima_accion NerfM 1 1 1 0 (1/2) 1 "put" "" (by norm_num)
  have heq := H _ _ hc hp
  have hN1 : NerfM 1 + NerfM (-1) = 1 := NerfM_add_neg 1 one_ne_zero
  norm_num at hd1
  simp [bsValues, Real.sqrt_one] at heq
  norm_num at heq
  rw [hd1] at heq
  norm_num [NerfM_zero] at heq
  nlinarith [Real.exp_pos (-(2 : ℝ)⁻¹), hN1, heq]

/-- Witness for C6's amended theorem at a contract with `d1 = 3/5` and
`d2 = -2/5`. -/
theorem put_call_parity_generic_witness :
    ¬ (1 : ℝ) ≤ 0 ∧
    (∃ c p : ℝ,
      blackScholesGen Npoly "prima" 1 1 1 (1/10) 0 1 "call" "accion" "" =
        .ok (.num c) ∧
      blackScholesGen Npoly "prima" 1 1 1 (1/10) 0 1 "put" "accion" "" =
        .ok (.num p) ∧
      c - p = 1 * Real.exp ((1/10 - 0 - 1/10) * 1) - 1 * Real.exp (-(1/10 * 1))) :=
  ⟨by norm_num,
    put_call_parity_generic 1 1 1 (1/10) 0 1 "" (by norm_num)
      (by norm_num [bsD1, Real.log_one, Real.sqrt_one])
      (by norm_num [bsD2, bsD1, Real.log_one, Real.sqrt_one]) Npoly (Or.inl rfl)⟩
